import Mathlib

set_option maxHeartbeats 1000000
set_option maxRecDepth 4096

/-!
Verification of the response-normalization and invoice-aggregation pipeline of
the ocr_invoice_mango repository (src/ocr_service.py, with callers in
src/main.py and src/app.py).

Modelling conventions:
* A Python/pandas cell is `Cell := Option Val`: `none` stands uniformly for a
  missing key, a JSON null and a pandas NaN (pandas `first`, `last`, `dropna`
  and `groupby` treat None and NaN the same way).
* A Python dict is an association list with unique keys; `dictSet` mirrors
  item assignment (replace the binding in place, else append), `dictUpdate`
  mirrors `dict.update` (left-to-right).
* Numeric values are modelled as integers (`Val.vInt`); the claims under
  study do not depend on fractional rendering.
* A `none` result of a model function that returns `Option` stands for an
  uncaught Python exception (pandas KeyError from a missing `agg` column,
  ValueError from a failing `int(...)`), except where a comment says
  otherwise.
* pandas `groupby(sort=True)` sorts group keys; since `results_to_dataframe`
  re-sorts the grouped frame by first page number afterwards, the key order
  only influences ties of that final sort.  We model the intermediate key
  order as order of first appearance and the final sort as a stable sort;
  no claim below depends on the tie order.
-/

namespace Ocr

/-- Scalar JSON/pandas values occurring in extraction records. -/
inductive Val where
  | vStr (s : String)
  | vInt (n : Int)
  | vBool (b : Bool)
deriving DecidableEq

/-- A cell: `none` models a missing key, a JSON null, or a pandas NaN. -/
abbrev Cell := Option Val

/-- A Python dict / DataFrame row: association list with unique keys. -/
abbrev Row := List (String × Cell)

/- Column names used by src/ocr_service.py (lines 196-227). -/

def kPage : String := "Page"
def kInvNo : String := "tax_invoice_number"
def kDocType : String := "document_type"
def kDate : String := "tax_invoice_date"
def kVendorName : String := "vendor_name"
def kVendorTaxId : String := "vendor_tax_id"
def kVendorAddr : String := "vendor_address"
def kCustName : String := "customer_name"
def kCustTaxId : String := "customer_tax_id"
def kCustAddr : String := "customer_address"
def kSubTotal : String := "sub_total"
def kVat : String := "vat_amount"
def kGrand : String := "grand_total"
def kHasTax : String := "has_tax_invoice"
def kHasSig : String := "has_signature"
def kDesc : String := "Description"
def kQty : String := "Quantity"
def kUnitPrice : String := "Unit Price"
def kAmount : String := "Amount"

/-- Look a key up in a dict; `some c` means the key is present with cell `c`. -/
def lookupCell (r : Row) (k : String) : Option Cell :=
  (r.find? (fun p => decide (p.1 = k))).map (fun p => p.2)

/-- The cell a DataFrame column sees for this row: a missing key and a
present-but-null value both give `none`. -/
def cellOf (r : Row) (k : String) : Cell :=
  (lookupCell r k).join

/-- Python item assignment on a dict: replace the binding in place if the key
exists, else append it. -/
def dictSet : Row → String → Cell → Row
  | [], k, v => [(k, v)]
  | p :: rest, k, v => if p.1 = k then (k, v) :: rest else p :: dictSet rest k v

/-- Python `base.update(item)`: set each binding of `item` in order. -/
def dictUpdate (base : Row) (item : Row) : Row :=
  item.foldl (fun acc p => dictSet acc p.1 p.2) base

/-- The value stored under the key `line_items` of an extraction record
(src/ocr_service.py line 176): absent, a JSON array of objects, a string
(whose `ast.literal_eval` outcome is `litEval`; `none` = the call raises and
is caught), or a JSON null.  A string whose literal_eval yields a non-list
value is outside this model. -/
inductive LineItemsVal where
  | absent
  | items (xs : List Row)
  | strVal (litEval : Option (List Row))
  | nullVal
deriving DecidableEq

/-- One per-page extraction result, as the Python dict it is:
`fields` are all bindings except `line_items`, which is kept apart so that
`pop` (line 176) can be modelled. -/
structure ExtractionRecord where
  fields : Row
  line_items : LineItemsVal
deriving DecidableEq

/-- The list the loop body works with after
`items = result.pop('line_items', [])` and the string-repair branch
(lines 176-181): an absent key defaults to `[]`, a failing `literal_eval` is
caught and replaced by `[]`, and a null value is falsy so the zero-item
branch runs for it. -/
def effectiveItems : LineItemsVal → List Row
  | .absent => []
  | .items xs => xs
  | .strVal p => p.getD []
  | .nullVal => []

/-- `page = result.get('Page', 0)` (line 175). -/
def pageOf (r : ExtractionRecord) : Cell :=
  (lookupCell r.fields kPage).getD (some (.vInt 0))

/-- The flat rows one record contributes to `merged` (lines 182-190): one row
per line item (record fields updated by the item, then `Page` set), or the
record fields themselves with `Page` set when there is no effective item. -/
def flattenRecord (r : ExtractionRecord) : List Row :=
  let page := pageOf r
  let items := effectiveItems r.line_items
  if items.isEmpty then
    [dictSet r.fields kPage page]
  else
    items.map (fun item => dictSet (dictUpdate r.fields item) kPage page)

/-- The full `merged` list (lines 173-190). -/
def flattenAll : List ExtractionRecord → List Row
  | [] => []
  | r :: rest => flattenRecord r ++ flattenAll rest

/-- The state of one input record after the loop body ran on it: `pop`
removed `line_items` in both branches, and the zero-item branch additionally
wrote the record's own `Page` binding (line 189) because the record object
itself was appended to `merged`. -/
def recordAfterNormalize (r : ExtractionRecord) : ExtractionRecord :=
  let page := pageOf r
  let items := effectiveItems r.line_items
  if items.isEmpty then ⟨dictSet r.fields kPage page, .absent⟩
  else ⟨r.fields, .absent⟩

/-- Add a column name if it is not present yet (first-appearance order, as
pandas does when building a DataFrame from a list of dicts). -/
def addCol (cols : List String) (k : String) : List String :=
  if k ∈ cols then cols else cols ++ [k]

def rowCols (cols : List String) (r : Row) : List String :=
  r.foldl (fun acc p => addCol acc p.1) cols

/-- `df.columns` for `pd.DataFrame(merged)`. -/
def dfColumns (rows : List Row) : List String :=
  rows.foldl rowCols []

/- Integer rendering and parsing, modelling Python `str(int)` and
`int(str)`.  Fuelled recursion is used so that every definition reduces
inside the kernel (`decide` / `rfl`). -/

def digitChar : Nat → Char
  | 0 => '0'
  | 1 => '1'
  | 2 => '2'
  | 3 => '3'
  | 4 => '4'
  | 5 => '5'
  | 6 => '6'
  | 7 => '7'
  | 8 => '8'
  | 9 => '9'
  | _ => '?'

def natDigitsAux : Nat → Nat → List Char
  | 0, _ => []
  | fuel + 1, n =>
    if n < 10 then [digitChar n]
    else natDigitsAux fuel (n / 10) ++ [digitChar (n % 10)]

/-- Decimal digits of a natural number, most significant first. -/
def natDigits (n : Nat) : List Char := natDigitsAux (n + 1) n

/-- Python `str` of an int. -/
def pyStrIntChars (n : Int) : List Char :=
  if n < 0 then '-' :: natDigits n.natAbs else natDigits n.toNat

def digitVal (c : Char) : Nat := c.toNat - 48

def digitsValNat (l : List Char) : Nat :=
  l.foldl (fun a c => a * 10 + digitVal c) 0

/-- Python `int(str)` restricted to an optional minus sign followed by
digits (surrounding whitespace, a plus sign and underscores, which Python
also accepts, do not occur in this pipeline); `none` models ValueError. -/
def pyParseIntChars : List Char → Option Int
  | [] => none
  | c :: cs =>
    if c = '-' then
      if cs.isEmpty then none
      else if cs.all Char.isDigit then some (-(digitsValNat cs : Int)) else none
    else if (c :: cs).all Char.isDigit then some ((digitsValNat (c :: cs) : Int)) else none

/-- Python `int(x)` on a cell value (bool is an int subtype in Python). -/
def pyIntOfVal : Val → Option Int
  | .vInt n => some n
  | .vBool b => some (if b then 1 else 0)
  | .vStr s => pyParseIntChars s.data

/-- Insert into a strictly sorted list, skipping duplicates. -/
def insSortDedup (n : Int) : List Int → List Int
  | [] => [n]
  | m :: ms =>
    if n < m then n :: m :: ms
    else if n = m then m :: ms
    else m :: insSortDedup n ms

/-- `sorted(set(l))`. -/
def sortedDedup (l : List Int) : List Int := l.foldr insSortDedup []

/-- One run: the f-string rendering of line 127/129. -/
def renderRun (a b : Int) : List Char :=
  if a = b then pyStrIntChars a else pyStrIntChars a ++ '-' :: pyStrIntChars b

/-- The loop of lines 123-129 over the remaining sorted pages, with the
current run being `[start, e]`. -/
def rangesLoop (start e : Int) : List Int → List (List Char)
  | [] => [renderRun start e]
  | p :: ps =>
    if p = e + 1 then rangesLoop start p ps
    else renderRun start e :: rangesLoop p p ps

/-- Python `', '.join(...)` (line 130). -/
def joinCommaChars : List (List Char) → List Char
  | [] => []
  | [s] => s
  | s :: rest => s ++ ',' :: ' ' :: joinCommaChars rest

/-- format_page_ranges after sorting/dedup: empty input gives the empty
string (lines 118-119). -/
def formatSorted : List Int → String
  | [] => ""
  | p :: ps => (joinCommaChars (rangesLoop p p ps)).asString

/-- Option-valued map, modelling a Python loop that may raise. -/
def mapOpt (f : α → Option β) : List α → Option (List β)
  | [] => some []
  | a :: l =>
    match f a, mapOpt f l with
    | some b, some bs => some (b :: bs)
    | _, _ => none

/-- src/ocr_service.py lines 116-130 (`format_page_ranges`): drop nulls,
apply `int`, dedup, sort, render maximal consecutive runs.  `none` models
a ValueError from a non-integer entry. -/
def format_page_ranges (cells : List Cell) : Option String :=
  (mapOpt pyIntOfVal (cells.filterMap id)).map
    (fun ints => formatSorted (sortedDedup ints))

/-- Specification-side maximal consecutive runs of a (sorted, duplicate
free) list: adjacent values that differ by one are merged into one
`(start, stop)` run. -/
def specRuns : List Int → List (Int × Int)
  | [] => []
  | p :: ps =>
    match specRuns ps with
    | [] => [(p, p)]
    | (a, b) :: rest => if p + 1 = a then (p, b) :: rest else (p, p) :: (a, b) :: rest

/-- Prefix of a char list before the first occurrence of `c`
(Python `s.split(c)[0]`). -/
def takeUntil (c : Char) (l : List Char) : List Char :=
  l.takeWhile (fun x => decide (x ≠ c))

/-- src/ocr_service.py lines 132-137 (`extract_first_page_number`).
A missing cell is a pandas NaN, a float, so `int(NaN)` raises (`none`);
a Python bool is an int. -/
def extract_first_page_number : Cell → Option Int
  | some (.vStr s) => pyParseIntChars (takeUntil '-' (takeUntil ',' s.data))
  | some (.vInt n) => some n
  | some (.vBool b) => some (if b then 1 else 0)
  | none => none

/- The invoice aggregator: src/ocr_service.py lines 192-230. -/

/-- pandas GroupBy `first`: first non-null value in row order. -/
def firstNonNull (cs : List Cell) : Cell := (cs.filterMap id).head?

/-- pandas GroupBy `last`: last non-null value in row order. -/
def lastNonNull (cs : List Cell) : Cell := (cs.filterMap id).getLast?

/-- The column of cells a group shows for column `c`. -/
def colCells (g : List Row) (c : String) : List Cell := g.map (fun r => cellOf r c)

/-- pandas `astype(str)` on a scalar (numbers are modelled as integers). -/
def pyStrVal : Val → String
  | .vStr s => s
  | .vInt n => (pyStrIntChars n).asString
  | .vBool b => if b then "True" else "False"

def joinWith (sep : String) : List String → String
  | [] => ""
  | [s] => s
  | s :: rest => s ++ sep ++ joinWith sep rest

/-- The lambda of lines 211-214: newline-join of the non-null values,
coerced to text. -/
def joinLinesStr (cs : List Cell) : String :=
  joinWith "\n" ((cs.filterMap id).map pyStrVal)

inductive AggKind where
  | first
  | last
  | pages
  | joinText
deriving DecidableEq

/-- One aggregation function applied to a group's column. -/
def aggCell : AggKind → List Cell → Option Cell
  | .first, cs => some (firstNonNull cs)
  | .last, cs => some (lastNonNull cs)
  | .pages, cs => (format_page_ranges cs).map (fun s => some (.vStr s))
  | .joinText, cs => some (some (.vStr (joinLinesStr cs)))

/-- The `agg` dict of lines 196-215, in source order. -/
def aggSpec : List (String × AggKind) :=
  [(kPage, .pages), (kDocType, .first), (kDate, .first),
   (kVendorName, .first), (kVendorTaxId, .first), (kVendorAddr, .first),
   (kCustName, .first), (kCustTaxId, .first), (kCustAddr, .first),
   (kSubTotal, .first), (kVat, .first), (kGrand, .first),
   (kHasTax, .first), (kHasSig, .last),
   (kDesc, .joinText), (kQty, .joinText), (kUnitPrice, .joinText), (kAmount, .joinText)]

/-- One aggregated row: `reset_index` puts the group key first, then the
agg columns in dict order. -/
def aggregateGroup (k : Val) (g : List Row) : Option Row :=
  (mapOpt (fun ca => (aggCell ca.2 (colCells g ca.1)).map (fun c => (ca.1, c))) aggSpec).map
    (fun tail => (kInvNo, some k) :: tail)

/-- First occurrence of each value, order preserved. -/
def dedupFirst : List Val → List Val
  | [] => []
  | v :: vs => v :: (dedupFirst vs).filter (fun w => decide (w ≠ v))

/-- The distinct non-null group keys of `groupby('tax_invoice_number')`
(rows whose key cell is null are dropped: groupby dropna). -/
def groupKeys (rows : List Row) : List Val :=
  dedupFirst (rows.filterMap (fun r => cellOf r kInvNo))

/-- The rows of one group, in input order. -/
def groupRows (rows : List Row) (k : Val) : List Row :=
  rows.filter (fun r => decide (cellOf r kInvNo = some k))

/-- Stable insertion into a list sorted by the `sort_page` component. -/
def insertBySortPage (x : Int × Row) : List (Int × Row) → List (Int × Row)
  | [] => [x]
  | y :: ys => if x.1 ≤ y.1 then x :: y :: ys else y :: insertBySortPage x ys

/-- Stable sort by `sort_page` (line 218). -/
def sortBySortPage (l : List (Int × Row)) : List (Int × Row) :=
  l.foldr insertBySortPage []

/-- Reindex a row on the given columns, in order (line 229). -/
def projectRow (cols : List String) (r : Row) : Row :=
  cols.map (fun c => (c, cellOf r c))

/-- The canonical column order of lines 220-227. -/
def column_order : List String :=
  [kPage, kDocType, kInvNo, kDate,
   kVendorName, kVendorTaxId, kVendorAddr,
   kCustName, kCustTaxId, kCustAddr,
   kDesc, kQty, kUnitPrice, kAmount,
   kSubTotal, kVat, kGrand,
   kHasTax, kHasSig]

/-- Columns of `df_grouped` after `reset_index`. -/
def groupedCols : List String := kInvNo :: aggSpec.map (fun ca => ca.1)

/-- Columns surviving the final projection (line 229). -/
def finalCols : List String :=
  column_order.filter (fun c => decide (c ∈ groupedCols))

/-- A result table: ordered columns plus rows reindexed on them. -/
structure Table where
  cols : List String
  rows : List Row
deriving DecidableEq

/-- Lines 196-229: group by invoice number, aggregate each group, sort by
the first page number of the rendered page range, project onto the
canonical column order.  `none` models an uncaught pandas exception: the
KeyError raised when a column named in the `agg` dict is absent from the
DataFrame, or a ValueError from `extract_first_page_number`. -/
def groupAgg (rows : List Row) : Option Table :=
  if aggSpec.all (fun ca => decide (ca.1 ∈ dfColumns rows)) then
    (mapOpt (fun k => aggregateGroup k (groupRows rows k)) (groupKeys rows)).bind
      (fun grouped =>
        (mapOpt (fun r => (extract_first_page_number (cellOf r kPage)).map (fun n => (n, r)))
            grouped).map
          (fun keyed =>
            { cols := finalCols
              rows := ((sortBySortPage keyed).map (fun x => x.2)).map (projectRow finalCols) }))
  else none

/-- src/ocr_service.py lines 172-230 (`results_to_dataframe`): flatten all
records, return an empty frame when no row carries the invoice-number key,
otherwise aggregate. -/
def results_to_dataframe (all_results : List ExtractionRecord) : Option Table :=
  let merged := flattenAll all_results
  if kInvNo ∈ dfColumns merged then groupAgg merged
  else some { cols := [], rows := [] }

/-- Aggregating, then aggregating the resulting rows again. -/
def reAgg (rows : List Row) : Option Table :=
  (groupAgg rows).bind (fun t => groupAgg t.rows)

/- The response extractor: src/ocr_service.py lines 97-113. -/

def lbrace : Char := Char.ofNat 123

def rbrace : Char := Char.ofNat 125

def btick : Char := Char.ofNat 96

/-- Python regex whitespace (ASCII part). -/
def isPyWs (c : Char) : Bool :=
  c == ' ' || c == '\t' || c == '\n' || c == '\r' || c.toNat == 11 || c.toNat == 12

def skipPyWs (l : List Char) : List Char := l.dropWhile isPyWs

/-- JSON whitespace accepted by json.loads. -/
def skipJsonWs (l : List Char) : List Char :=
  l.dropWhile (fun c => c == ' ' || c == '\t' || c == '\n' || c == '\r')

/-- Parsed JSON value.  A number keeps its literal token, which is finer
than float equality and deterministic. -/
inductive Json where
  | null
  | bool (b : Bool)
  | num (lit : String)
  | str (s : String)
  | arr (elems : List Json)
  | obj (fields : List (String × Json))

/-- Python dict insertion while decoding an object: a duplicate key keeps
its first position but takes the last value. -/
def jsonDictSet : List (String × Json) → String → Json → List (String × Json)
  | [], k, v => [(k, v)]
  | p :: rest, k, v => if p.1 = k then (k, v) :: rest else p :: jsonDictSet rest k v

def escChar : Char → Option Char
  | '"' => some '"'
  | '\\' => some '\\'
  | '/' => some '/'
  | 'b' => some (Char.ofNat 8)
  | 'f' => some (Char.ofNat 12)
  | 'n' => some '\n'
  | 'r' => some '\r'
  | 't' => some '\t'
  | _ => none

def hexDigitVal (c : Char) : Option Nat :=
  if '0' ≤ c ∧ c ≤ '9' then some (c.toNat - 48)
  else if 'a' ≤ c ∧ c ≤ 'f' then some (c.toNat - 87)
  else if 'A' ≤ c ∧ c ≤ 'F' then some (c.toNat - 55)
  else none

/-- JSON string body after the opening quote; returns the decoded chars and
the input after the closing quote.  Surrogate-pair recombination of two
escapes is not modelled (each escape decodes separately). -/
def parseStringBody : List Char → Option (List Char × List Char)
  | [] => none
  | '"' :: rest => some ([], rest)
  | '\\' :: e :: rest =>
    if e = 'u' then
      match rest with
      | h1 :: h2 :: h3 :: h4 :: r =>
        match hexDigitVal h1, hexDigitVal h2, hexDigitVal h3, hexDigitVal h4 with
        | some a, some b, some c, some d =>
          (parseStringBody r).map
            (fun p => (Char.ofNat (4096 * a + 256 * b + 16 * c + d) :: p.1, p.2))
        | _, _, _, _ => none
      | _ => none
    else
      match escChar e with
      | some c => (parseStringBody rest).map (fun p => (c :: p.1, p.2))
      | none => none
  | c :: rest =>
    if c.toNat < 32 then none
    else (parseStringBody rest).map (fun p => (c :: p.1, p.2))

/-- Optional fraction of a JSON number. -/
def jsonFrac : List Char → Option (List Char × List Char)
  | '.' :: rest =>
    let ds := rest.takeWhile Char.isDigit
    if ds.isEmpty then none else some ('.' :: ds, rest.dropWhile Char.isDigit)
  | l => some ([], l)

/-- Optional exponent of a JSON number. -/
def jsonExp : List Char → Option (List Char × List Char)
  | c :: rest =>
    if c = 'e' ∨ c = 'E' then
      let sr : List Char × List Char :=
        match rest with
        | '+' :: r => (['+'], r)
        | '-' :: r => (['-'], r)
        | _ => ([], rest)
      let ds := sr.2.takeWhile Char.isDigit
      if ds.isEmpty then none
      else some (c :: sr.1 ++ ds, sr.2.dropWhile Char.isDigit)
    else some ([], c :: rest)
  | [] => some ([], [])

/-- A JSON number token (strict grammar: no leading zeros). -/
def parseNumberTok (cs : List Char) : Option (List Char × List Char) :=
  let sr : List Char × List Char :=
    match cs with
    | '-' :: r => (['-'], r)
    | _ => ([], cs)
  match sr.2 with
  | [] => none
  | c :: r2 =>
    if c = '0' then
      match jsonFrac r2 with
      | none => none
      | some (f, r3) =>
        match jsonExp r3 with
        | none => none
        | some (e, r4) => some (sr.1 ++ '0' :: f ++ e, r4)
    else if c.isDigit then
      let ds := (c :: r2).takeWhile Char.isDigit
      let r2' := (c :: r2).dropWhile Char.isDigit
      match jsonFrac r2' with
      | none => none
      | some (f, r3) =>
        match jsonExp r3 with
        | none => none
        | some (e, r4) => some (sr.1 ++ ds ++ f ++ e, r4)
    else none

mutual

/-- One JSON value, fuelled (the fuel passed by `parseJsonChars` always
suffices; running out yields `none`, a parse failure). -/
def parseValue : Nat → List Char → Option (Json × List Char)
  | 0, _ => none
  | fuel + 1, cs =>
    match skipJsonWs cs with
    | 'n' :: 'u' :: 'l' :: 'l' :: r => some (.null, r)
    | 't' :: 'r' :: 'u' :: 'e' :: r => some (.bool true, r)
    | 'f' :: 'a' :: 'l' :: 's' :: 'e' :: r => some (.bool false, r)
    | '"' :: r => (parseStringBody r).map (fun p => (.str p.1.asString, p.2))
    | c :: r =>
      if c = lbrace then parseObjBody fuel r
      else if c = '[' then parseArrBody fuel r
      else (parseNumberTok (c :: r)).map (fun p => (.num p.1.asString, p.2))
    | [] => none

def parseObjBody : Nat → List Char → Option (Json × List Char)
  | 0, _ => none
  | fuel + 1, cs =>
    match skipJsonWs cs with
    | [] => none
    | c :: r =>
      if c = rbrace then some (.obj [], r)
      else parseMembers fuel (c :: r) []

def parseMembers : Nat → List Char → List (String × Json) → Option (Json × List Char)
  | 0, _, _ => none
  | fuel + 1, cs, acc =>
    match cs with
    | '"' :: r =>
      (match parseStringBody r with
       | none => none
       | some (key, r2) =>
         match skipJsonWs r2 with
         | ':' :: r3 =>
           (match parseValue fuel r3 with
            | none => none
            | some (v, r4) =>
              let acc' := jsonDictSet acc key.asString v
              match skipJsonWs r4 with
              | ',' :: r5 => parseMembers fuel (skipJsonWs r5) acc'
              | c2 :: r5 => if c2 = rbrace then some (.obj acc', r5) else none
              | [] => none)
         | _ => none)
    | _ => none

def parseArrBody : Nat → List Char → Option (Json × List Char)
  | 0, _ => none
  | fuel + 1, cs =>
    match skipJsonWs cs with
    | [] => none
    | c :: r =>
      if c = ']' then some (.arr [], r)
      else parseElems fuel (c :: r) []

def parseElems : Nat → List Char → List Json → Option (Json × List Char)
  | 0, _, _ => none
  | fuel + 1, cs, acc =>
    match parseValue fuel cs with
    | none => none
    | some (v, r) =>
      match skipJsonWs r with
      | ',' :: r2 => parseElems fuel r2 (acc ++ [v])
      | c2 :: r2 => if c2 = ']' then some (.arr (acc ++ [v]), r2) else none
      | [] => none

end

/-- Python `json.loads` on a char list: one value, then only whitespace. -/
def parseJsonChars (l : List Char) : Option Json :=
  match parseValue (4 * l.length + 4) l with
  | some (v, rest) => if (skipJsonWs rest).isEmpty then some v else none
  | none => none

/- fix_numeric_commas (lines 97-102): the regex sub that rewrites a quoted
key, a colon and a thousands-separated number into the key, a colon and the
number with its commas stripped. -/

/-- Exactly `k` digits. -/
def takeKDigits : Nat → List Char → Option (List Char × List Char)
  | 0, cs => some ([], cs)
  | k + 1, c :: cs =>
    if c.isDigit then (takeKDigits k cs).map (fun p => (c :: p.1, p.2)) else none
  | _ + 1, [] => none

/-- One or more groups of a comma and three digits, greedy; the returned
chars have the commas stripped (as the replacement does). -/
def matchGroupsPlus : List Char → Option (List Char × List Char)
  | ',' :: a :: b :: c :: rest =>
    if a.isDigit ∧ b.isDigit ∧ c.isDigit then
      match matchGroupsPlus rest with
      | some (ds, r) => some (a :: b :: c :: ds, r)
      | none => some ([a, b, c], rest)
    else none
  | _ => none

/-- Optional fraction in the regex number (greedy). -/
def reFracOpt : List Char → List Char × List Char
  | '.' :: c :: rest =>
    if c.isDigit then
      ('.' :: (c :: rest).takeWhile Char.isDigit, (c :: rest).dropWhile Char.isDigit)
    else ([], '.' :: c :: rest)
  | cs => ([], cs)

/-- The number part of the regex at this position: an optional minus sign,
one to three digits (greedy with backtracking), one or more comma groups,
an optional fraction.  Returns the comma-stripped number and the rest. -/
def matchNumberAt (cs : List Char) : Option (List Char × List Char) :=
  let sr : List Char × List Char :=
    match cs with
    | '-' :: r => (['-'], r)
    | _ => ([], cs)
  let attempt : Nat → Option (List Char × List Char) := fun k =>
    match takeKDigits k sr.2 with
    | none => none
    | some (lead, r1) =>
      match matchGroupsPlus r1 with
      | none => none
      | some (gs, r2) =>
        let fr := reFracOpt r2
        some (sr.1 ++ lead ++ gs ++ fr.1, fr.2)
  (attempt 3).orElse (fun _ => (attempt 2).orElse (fun _ => attempt 1))

/-- Starting just after an opening quote, try each possible closing quote in
order (the lazy group): the span may not cross a newline; at a closing
quote, the rest must be whitespace, a colon, whitespace and the number.
Returns the quoted key (with quotes), the comma-stripped number and the
rest of the input after the match. -/
def tryCloseQuote (inner : List Char) : List Char → Option (List Char × List Char × List Char)
  | [] => none
  | c :: rest =>
    if c = '\n' then none
    else if c = '"' then
      match skipPyWs rest with
      | ':' :: r2 =>
        (match matchNumberAt (skipPyWs r2) with
         | some (num, r4) => some ('"' :: inner ++ ['"'], num, r4)
         | none => tryCloseQuote (inner ++ ['"']) rest)
      | _ => tryCloseQuote (inner ++ ['"']) rest
    else tryCloseQuote (inner ++ [c]) rest

/-- The scan of `re.sub`: attempt a match at every position (a match can
only start at a quote); on a match emit the replacement and continue after
it.  Fuelled by the input length, which suffices as every step consumes at
least one char. -/
def fixNumGo : Nat → List Char → List Char
  | 0, l => l
  | _ + 1, [] => []
  | fuel + 1, c :: rest =>
    if c = '"' then
      match tryCloseQuote [] rest with
      | some (key, num, r) => key ++ ':' :: ' ' :: num ++ fixNumGo fuel r
      | none => c :: fixNumGo fuel rest
    else c :: fixNumGo fuel rest

def fix_numeric_commas (l : List Char) : List Char := fixNumGo l.length l

/-- The second repair (line 108): delete a comma standing before optional
whitespace and a closing brace or bracket (the whitespace is removed with
it, as the sub replaces the whole match by the bracket). -/
def rtcGo : Nat → List Char → List Char
  | 0, l => l
  | _ + 1, [] => []
  | fuel + 1, c :: rest =>
    if c = ',' then
      match skipPyWs rest with
      | c2 :: r =>
        if c2 = rbrace ∨ c2 = ']' then c2 :: rtcGo fuel r
        else c :: rtcGo fuel rest
      | [] => c :: rtcGo fuel rest
    else c :: rtcGo fuel rest

def removeTrailingCommas (l : List Char) : List Char := rtcGo l.length l

/-- Strip a literal prefix, returning the rest when it is present. -/
def stripPre : List Char → List Char → Option (List Char)
  | [], cs => some cs
  | p :: ps, c :: cs => if c = p then stripPre ps cs else none
  | _ :: _, [] => none

def fenceTag : List Char := "```json".data

def fenceEnd : List Char := "```".data

/-- Scanning inside a fenced candidate that began with a brace: try each
closing brace in order (lazy group, DOTALL); the rest after it must be
whitespace and the closing fence.  Returns the captured brace span. -/
def fencedBody (inner : List Char) : List Char → Option (List Char)
  | [] => none
  | c :: rest =>
    if c = rbrace then
      match stripPre fenceEnd (skipPyWs rest) with
      | some _ => some (lbrace :: inner ++ [rbrace])
      | none => fencedBody (inner ++ [c]) rest
    else fencedBody (inner ++ [c]) rest

/-- The first fenced-JSON capture of the text (line 105, first regex):
the fence tag, whitespace, a brace span, whitespace, a closing fence. -/
def findFencedFrom : List Char → Option (List Char)
  | [] => none
  | c :: rest =>
    match stripPre fenceTag (c :: rest) with
    | some afterTag =>
      (match skipPyWs afterTag with
       | c2 :: body =>
         if c2 = lbrace then
           match fencedBody [] body with
           | some cap => some cap
           | none => findFencedFrom rest
         else findFencedFrom rest
       | [] => findFencedFrom rest)
    | none => findFencedFrom rest

/-- The fallback capture (line 105, second regex): the greedy span from the
first opening brace to the last closing brace after it. -/
def findBraceSpan (cs : List Char) : Option (List Char) :=
  let fromBrace := cs.dropWhile (fun c => c != lbrace)
  let trimmed := (fromBrace.reverse.dropWhile (fun c => c != rbrace)).reverse
  if trimmed.isEmpty then none else some trimmed

/-- src/ocr_service.py lines 104-113 (`extract_and_clean_json`): find a
candidate span (fenced first, brace fallback), repair it, parse it; any
failure gives None and the JSONDecodeError is caught. -/
def extract_and_clean_json (text : String) : Option Json :=
  match (findFencedFrom text.data).orElse (fun _ => findBraceSpan text.data) with
  | none => none
  | some span => parseJsonChars (removeTrailingCommas (fix_numeric_commas span))

/-- Python truthiness of a decoded JSON value (`if result:` on line 164).
For a number the check is a zero test; a token of zeros, signs, dots and
exponent marks counts as zero, which is exact for the tokens this pipeline
produces. -/
def jsonTruthy : Json → Bool
  | .null => false
  | .bool b => b
  | .str s => !s.isEmpty
  | .arr l => !l.isEmpty
  | .obj l => !l.isEmpty
  | .num lit =>
    !(lit.data.all (fun c => c = '0' ∨ c = '-' ∨ c = '+' ∨ c = '.' ∨ c = 'e' ∨ c = 'E'))

/-- `result['Page'] = idx` (line 165) on a decoded object; the decoded
value is always an object here because every candidate span starts with a
brace. -/
def jsonSetField (j : Json) (k : String) (v : Json) : Json :=
  match j with
  | .obj fields => .obj (jsonDictSet fields k v)
  | other => other

/-- src/ocr_service.py lines 140-169 (`run_ocr_on_pdf`) with the rendering
and network call abstracted: `replies` holds, per selected page index, the
model's reply text (`none` when the HTTP response is not ok).  Note the
function returns only this one list of per-page records (line 169) — it
never builds a DataFrame. -/
def run_ocr_on_pdf (replies : List (Int × Option String)) : List Json :=
  match replies with
  | [] => []
  | p :: rest =>
    let acc := run_ocr_on_pdf rest
    match p.2 with
    | none => acc
    | some text =>
      match extract_and_clean_json text with
      | none => acc
      | some j =>
        if jsonTruthy j then
          jsonSetField j kPage (.num ((pyStrIntChars p.1).asString)) :: acc
        else acc

/-- The aggregated row of one group, given the rendered page range `s`:
the group key first (reset_index), then the agg-dict columns in source
order. -/
def aggRowOf (k : Val) (g : List Row) (s : String) : Row :=
  [(kInvNo, some k),
   (kPage, some (.vStr s)),
   (kDocType, firstNonNull (colCells g kDocType)),
   (kDate, firstNonNull (colCells g kDate)),
   (kVendorName, firstNonNull (colCells g kVendorName)),
   (kVendorTaxId, firstNonNull (colCells g kVendorTaxId)),
   (kVendorAddr, firstNonNull (colCells g kVendorAddr)),
   (kCustName, firstNonNull (colCells g kCustName)),
   (kCustTaxId, firstNonNull (colCells g kCustTaxId)),
   (kCustAddr, firstNonNull (colCells g kCustAddr)),
   (kSubTotal, firstNonNull (colCells g kSubTotal)),
   (kVat, firstNonNull (colCells g kVat)),
   (kGrand, firstNonNull (colCells g kGrand)),
   (kHasTax, firstNonNull (colCells g kHasTax)),
   (kHasSig, lastNonNull (colCells g kHasSig)),
   (kDesc, some (.vStr (joinLinesStr (colCells g kDesc)))),
   (kQty, some (.vStr (joinLinesStr (colCells g kQty)))),
   (kUnitPrice, some (.vStr (joinLinesStr (colCells g kUnitPrice)))),
   (kAmount, some (.vStr (joinLinesStr (colCells g kAmount))))]

/-- First concrete row of the C1 witness group: page 1, vendor V1, no
signature. -/
def c1Row1 : Row :=
  [(kInvNo, some (.vStr ("INV-7"))), (kPage, some (.vInt 1)),
   (kDocType, some (.vStr ("Tax Invoice"))), (kDate, some (.vStr ("01/01/25"))),
   (kVendorName, some (.vStr ("V1"))), (kVendorTaxId, none), (kVendorAddr, none),
   (kCustName, none), (kCustTaxId, none), (kCustAddr, none),
   (kSubTotal, some (.vInt 100)), (kVat, some (.vInt 7)), (kGrand, some (.vInt 107)),
   (kHasTax, some (.vBool true)), (kHasSig, some (.vBool false)),
   (kDesc, some (.vStr ("item one"))), (kQty, some (.vInt 1)),
   (kUnitPrice, some (.vInt 100)), (kAmount, some (.vInt 100))]

/-- Second concrete row of the C1 witness group: page 2, conflicting vendor
V2, signature detected. -/
def c1Row2 : Row :=
  [(kInvNo, some (.vStr ("INV-7"))), (kPage, some (.vInt 2)),
   (kDocType, some (.vStr ("Tax Invoice"))), (kDate, none),
   (kVendorName, some (.vStr ("V2"))), (kVendorTaxId, some (.vStr ("123"))),
   (kVendorAddr, none), (kCustName, none), (kCustTaxId, none), (kCustAddr, none),
   (kSubTotal, none), (kVat, none), (kGrand, none),
   (kHasTax, some (.vBool true)), (kHasSig, some (.vBool true)),
   (kDesc, some (.vStr ("item two"))), (kQty, some (.vInt 2)),
   (kUnitPrice, some (.vInt 50)), (kAmount, some (.vInt 100))]

def c1Rows : List Row := [c1Row1, c1Row2]

def c1Table : Table := (groupAgg c1Rows).getD { cols := [], rows := [] }

def c5Text : String := "```json\n\x7b\"s\": \"a,\x7d\"\x7d\n```"

def c5Span : List Char := ("\x7b\"s\": \"a,\x7d\"\x7d").data

def c5GoodText : String := "```json\n\x7b\"a\": 1\x7d\n```"

def c6Text : String := "```json\n\x7b\"a\": 1\x7d\n```"

/-- A flat row carrying every aggregated column, used by the concrete
witnesses of the aggregation claims. -/
def fullRow (inv : Cell) (page : Int) (vname : String) (sig : Bool) (d : String) : Row :=
  [(kInvNo, inv), (kPage, some (.vInt page)),
   (kDocType, some (.vStr ("T"))), (kDate, some (.vStr ("d"))),
   (kVendorName, some (.vStr vname)), (kVendorTaxId, none), (kVendorAddr, none),
   (kCustName, none), (kCustTaxId, none), (kCustAddr, none),
   (kSubTotal, some (.vInt 100)), (kVat, some (.vInt 7)), (kGrand, some (.vInt 107)),
   (kHasTax, some (.vBool true)), (kHasSig, some (.vBool sig)),
   (kDesc, some (.vStr d)), (kQty, some (.vInt 1)),
   (kUnitPrice, some (.vInt 100)), (kAmount, some (.vInt 100))]

/-- A two-page single-invoice group (C7 counterexample data). -/
def c7Rows : List Row :=
  [fullRow (some (.vStr ("A"))) 1 ("V") false ("x"),
   fullRow (some (.vStr ("A"))) 2 ("V") true ("y")]

/-- An already-aggregated single-page summary row, in canonical column
order (C7 witness data). -/
def c7SRow : Row :=
  [(kPage, some (.vStr ("1"))), (kDocType, some (.vStr ("T"))),
   (kInvNo, some (.vStr ("A"))), (kDate, some (.vStr ("d"))),
   (kVendorName, some (.vStr ("V"))), (kVendorTaxId, none), (kVendorAddr, none),
   (kCustName, none), (kCustTaxId, none), (kCustAddr, none),
   (kDesc, some (.vStr ("x"))), (kQty, some (.vStr ("1"))),
   (kUnitPrice, some (.vStr ("100"))), (kAmount, some (.vStr ("100"))),
   (kSubTotal, some (.vInt 100)), (kVat, some (.vInt 7)), (kGrand, some (.vInt 107)),
   (kHasTax, some (.vBool true)), (kHasSig, some (.vBool true))]

/-- A batch whose single record has no invoice-number binding (C8 witness
data). -/
def c8NoKeyRecs : List ExtractionRecord :=
  [⟨[(kPage, some (.vInt 1)), (kDesc, some (.vStr ("x")))], .absent⟩]

/-- A batch whose single record carries every aggregated column but a null
invoice number (C8 witness data). -/
def c8NullRecs : List ExtractionRecord :=
  [⟨fullRow none 1 ("V") true ("z"), .absent⟩]

/-- A batch whose single record carries every aggregated column and a
non-null invoice number (C9 witness data). -/
def c9Recs : List ExtractionRecord :=
  [⟨fullRow (some (.vStr ("B"))) 1 ("V") true ("z"), .absent⟩]

/-! Dictionary lemmas. -/

theorem lookupCell_cons (k1 : String) (v1 : Cell) (rest : Row) (k : String) :
    lookupCell ((k1, v1) :: rest) k = if k1 = k then some v1 else lookupCell rest k := by
  by_cases h : k1 = k <;> simp [lookupCell, List.find?, h]

theorem lookupCell_dictSet_self (r : Row) (k : String) (v : Cell) :
    lookupCell (dictSet r k v) k = some v := by
  induction r with
  | nil => simp [dictSet, lookupCell_cons]
  | cons p rest ih =>
    obtain ⟨k1, v1⟩ := p
    by_cases h : k1 = k
    · simp [dictSet, h, lookupCell_cons]
    · simp [dictSet, h, lookupCell_cons, ih]

theorem lookupCell_dictSet_ne (r : Row) (k k' : String) (v : Cell) (h : k' ≠ k) :
    lookupCell (dictSet r k v) k' = lookupCell r k' := by
  have hkk : ¬(k = k') := fun hh => h hh.symm
  induction r with
  | nil => simp [dictSet, lookupCell_cons, hkk, lookupCell, List.find?]
  | cons p rest ih =>
    obtain ⟨k1, v1⟩ := p
    by_cases h1 : k1 = k
    · subst h1
      simp [dictSet, lookupCell_cons, hkk]
    · simp [dictSet, h1, lookupCell_cons, ih]

theorem cellOf_dictSet_self (r : Row) (k : String) (v : Cell) :
    cellOf (dictSet r k v) k = v := by
  simp [cellOf, lookupCell_dictSet_self]

theorem cellOf_dictSet_ne (r : Row) (k k' : String) (v : Cell) (h : k' ≠ k) :
    cellOf (dictSet r k v) k' = cellOf r k' := by
  simp [cellOf, lookupCell_dictSet_ne r k k' v h]

theorem lookupCell_eq_none_iff (r : Row) (k : String) :
    lookupCell r k = none ↔ k ∉ r.map (fun p => p.1) := by
  induction r with
  | nil => simp [lookupCell, List.find?]
  | cons p rest ih =>
    obtain ⟨k1, v1⟩ := p
    by_cases h : k1 = k
    · simp [lookupCell_cons, h]
    · have h' : ¬(k = k1) := fun hh => h hh.symm
      simp [lookupCell_cons, h, h', ih]

theorem lookupCell_dictUpdate_not_mem (base item : Row) (k : String)
    (h : k ∉ item.map (fun p => p.1)) :
    lookupCell (dictUpdate base item) k = lookupCell base k := by
  induction item generalizing base with
  | nil => rfl
  | cons p rest ih =>
    obtain ⟨k1, v1⟩ := p
    simp only [List.map_cons, List.mem_cons] at h
    push_neg at h
    have hstep : dictUpdate base ((k1, v1) :: rest) = dictUpdate (dictSet base k1 v1) rest := rfl
    rw [hstep, ih _ h.2, lookupCell_dictSet_ne _ _ _ _ h.1]

theorem lookupCell_dictUpdate_mem (base item : Row) (k : String) (c : Cell)
    (hnd : (item.map (fun p => p.1)).Nodup) (h : lookupCell item k = some c) :
    lookupCell (dictUpdate base item) k = some c := by
  induction item generalizing base with
  | nil => simp [lookupCell, List.find?] at h
  | cons p rest ih =>
    obtain ⟨k1, v1⟩ := p
    simp only [List.map_cons, List.nodup_cons] at hnd
    have hstep : dictUpdate base ((k1, v1) :: rest) = dictUpdate (dictSet base k1 v1) rest := rfl
    by_cases hk : k1 = k
    · subst hk
      rw [lookupCell_cons, if_pos rfl] at h
      rw [hstep, lookupCell_dictUpdate_not_mem _ _ _ hnd.1, lookupCell_dictSet_self, h]
    · rw [lookupCell_cons, if_neg hk] at h
      rw [hstep, ih _ hnd.2 h]

/-- C2: the Record Normalizer (lines 172-190) emits one flat row per line
item when there is at least one, exactly one row when the line-item list is
empty, absent, null, or a string whose literal_eval fails (caught, treated
as empty); every emitted row carries the record's `Page`; every invoice
level field survives into each row unless a same-named line-item key
overwrites it, line-item keys winning on conflict (except `Page`, which is
rewritten last). -/
theorem C2_record_normalizer (r : ExtractionRecord) :
    (∀ xs, r.line_items = .items xs → xs ≠ [] →
       flattenRecord r =
         xs.map (fun item => dictSet (dictUpdate r.fields item) kPage (pageOf r)) ∧
       (flattenRecord r).length = xs.length) ∧
    ((r.line_items = .items [] ∨ r.line_items = .strVal none ∨
        r.line_items = .absent ∨ r.line_items = .nullVal) →
       flattenRecord r = [dictSet r.fields kPage (pageOf r)]) ∧
    (∀ row ∈ flattenRecord r, cellOf row kPage = pageOf r) ∧
    (∀ item k, k ≠ kPage → lookupCell item k = none →
       cellOf (dictSet (dictUpdate r.fields item) kPage (pageOf r)) k = cellOf r.fields k) ∧
    (∀ item k c, k ≠ kPage → (item.map (fun p => p.1)).Nodup → lookupCell item k = some c →
       cellOf (dictSet (dictUpdate r.fields item) kPage (pageOf r)) k = c) := by
  refine ⟨?_, ?_, ?_, ?_, ?_⟩
  · intro xs hxs hne
    cases xs with
    | nil => exact absurd rfl hne
    | cons y ys =>
      constructor
      · simp [flattenRecord, hxs, effectiveItems]
      · simp [flattenRecord, hxs, effectiveItems]
  · intro hcase
    have hemp : (effectiveItems r.line_items).isEmpty = true := by
      rcases hcase with h | h | h | h <;> simp [h, effectiveItems]
    simp [flattenRecord, hemp]
  · intro row hrow
    by_cases hemp : (effectiveItems r.line_items).isEmpty
    · simp only [flattenRecord, if_pos hemp, List.mem_singleton] at hrow
      rw [hrow, cellOf_dictSet_self]
    · simp only [flattenRecord, if_neg hemp, List.mem_map] at hrow
      obtain ⟨item, _, hrow⟩ := hrow
      rw [← hrow, cellOf_dictSet_self]
  · intro item k hk hnone
    rw [cellOf_dictSet_ne _ _ _ _ hk, cellOf,
      lookupCell_dictUpdate_not_mem _ _ _ ((lookupCell_eq_none_iff _ _).mp hnone)]
    rfl
  · intro item k c hk hnd hsome
    rw [cellOf_dictSet_ne _ _ _ _ hk, cellOf, lookupCell_dictUpdate_mem _ _ _ _ hnd hsome]
    rfl

/-- C2 witness: a record with two line items, evaluated concretely. -/
theorem C2_record_normalizer_witness :
    flattenRecord
        ⟨[(kInvNo, some (.vStr ("A"))), (kPage, some (.vInt 1)),
          (kVendorName, some (.vStr ("V")))],
          .items [[(kDesc, some (.vStr ("x")))], [(kDesc, some (.vStr ("y")))]]⟩ =
      [[(kDesc, some (.vStr ("x")))], [(kDesc, some (.vStr ("y")))]].map
        (fun item =>
          dictSet
            (dictUpdate
              [(kInvNo, some (.vStr ("A"))), (kPage, some (.vInt 1)),
               (kVendorName, some (.vStr ("V")))] item)
            kPage
            (pageOf
              ⟨[(kInvNo, some (.vStr ("A"))), (kPage, some (.vInt 1)),
                (kVendorName, some (.vStr ("V")))],
                .items [[(kDesc, some (.vStr ("x")))], [(kDesc, some (.vStr ("y")))]]⟩)) ∧
    (flattenRecord
        ⟨[(kInvNo, some (.vStr ("A"))), (kPage, some (.vInt 1)),
          (kVendorName, some (.vStr ("V")))],
          .items [[(kDesc, some (.vStr ("x")))], [(kDesc, some (.vStr ("y")))]]⟩).length = 2 :=
  (C2_record_normalizer _).1 _ rfl (by decide)

/-- C10 counterexample: normalization mutates its input record — the
`pop` on line 176 removes the `line_items` binding, so the record differs
from its pre-call value. -/
theorem C10_not_mutated_counterexample :
    recordAfterNormalize
        ⟨[(kPage, some (.vInt 1)), (kVendorName, some (.vStr ("V")))],
          .items [[(kDesc, some (.vStr ("x")))]]⟩ ≠
      ⟨[(kPage, some (.vInt 1)), (kVendorName, some (.vStr ("V")))],
        .items [[(kDesc, some (.vStr ("x")))]]⟩ := by
  decide

/-- C10 as amended: normalization removes `line_items` from the consumed
record; when the record still has effective line items its other fields are
untouched, and in the zero-item case only its `Page` binding is written
(the record's own mapping being emitted as the single flat row); every
binding other than `Page` is preserved in all cases. -/
theorem C10_normalizer_frame (r : ExtractionRecord) :
    (recordAfterNormalize r).line_items = .absent ∧
    (∀ k, k ≠ kPage → lookupCell (recordAfterNormalize r).fields k = lookupCell r.fields k) ∧
    (effectiveItems r.line_items ≠ [] → (recordAfterNormalize r).fields = r.fields) ∧
    (effectiveItems r.line_items = [] →
       (recordAfterNormalize r).fields = dictSet r.fields kPage (pageOf r) ∧
       flattenRecord r = [(recordAfterNormalize r).fields]) := by
  by_cases hemp : (effectiveItems r.line_items).isEmpty
  · have h0 : effectiveItems r.line_items = [] := List.isEmpty_iff.mp hemp
    refine ⟨by simp [recordAfterNormalize, hemp], ?_, ?_, ?_⟩
    · intro k hk
      simp [recordAfterNormalize, hemp, lookupCell_dictSet_ne _ _ _ _ hk]
    · intro hne
      exact absurd h0 hne
    · intro _
      exact ⟨by simp [recordAfterNormalize, hemp], by simp [flattenRecord, hemp, recordAfterNormalize]⟩
  · have h0 : effectiveItems r.line_items ≠ [] := by
      simpa [List.isEmpty_iff] using hemp
    refine ⟨by simp [recordAfterNormalize, hemp], ?_, ?_, ?_⟩
    · intro k _
      simp [recordAfterNormalize, hemp]
    · intro _
      simp [recordAfterNormalize, hemp]
    · intro h
      exact absurd h h0

/-- C10 witness: the frame facts evaluated on a concrete record with one
line item. -/
theorem C10_normalizer_frame_witness :
    (recordAfterNormalize
        ⟨[(kPage, some (.vInt 3)), (kVendorName, some (.vStr ("W")))],
          .items [[(kDesc, some (.vStr ("z")))]]⟩).line_items = .absent ∧
    (recordAfterNormalize
        ⟨[(kPage, some (.vInt 3)), (kVendorName, some (.vStr ("W")))],
          .items [[(kDesc, some (.vStr ("z")))]]⟩).fields =
      [(kPage, some (.vInt 3)), (kVendorName, some (.vStr ("W")))] :=
  ⟨(C10_normalizer_frame _).1, (C10_normalizer_frame _).2.2.1 (by decide)⟩

/-! The page-range formatter: equivalence of the source loop with the
specification-side run decomposition. -/

theorem rangesLoop_eq_specRuns (l : List Int) (s e : Int) :
    rangesLoop s e l =
      match specRuns l with
      | [] => [renderRun s e]
      | (a, b) :: rest =>
        if e + 1 = a then renderRun s b :: rest.map (fun ab => renderRun ab.1 ab.2)
        else renderRun s e :: (specRuns l).map (fun ab => renderRun ab.1 ab.2) := by
  induction l generalizing s e with
  | nil => rfl
  | cons p ps ih =>
    rcases hsr : specRuns ps with _ | ⟨⟨a, b⟩, rest⟩
    · by_cases hpe : p = e + 1
      · subst hpe
        simp [rangesLoop, ih, hsr, specRuns]
      · have hpe' : ¬(e + 1 = p) := fun hh => hpe hh.symm
        simp [rangesLoop, hpe, ih, hsr, specRuns, hpe']
    · by_cases hpe : p = e + 1
      · subst hpe
        by_cases hpa : e + 1 + 1 = a
        · simp [rangesLoop, ih, hsr, specRuns, hpa]
        · simp [rangesLoop, ih, hsr, specRuns, hpa]
      · have hpe' : ¬(e + 1 = p) := fun hh => hpe hh.symm
        by_cases hpa : p + 1 = a
        · simp [rangesLoop, hpe, ih, hsr, specRuns, hpa, hpe']
        · simp [rangesLoop, hpe, ih, hsr, specRuns, hpa, hpe']

theorem formatSorted_eq_specRuns (m : List Int) :
    formatSorted m =
      (joinCommaChars ((specRuns m).map (fun ab => renderRun ab.1 ab.2))).asString := by
  cases m with
  | nil => rfl
  | cons p ps =>
    show (joinCommaChars (rangesLoop p p ps)).asString = _
    rw [rangesLoop_eq_specRuns]
    rcases hsr : specRuns ps with _ | ⟨⟨a, b⟩, rest⟩
    · simp [specRuns, hsr]
    · by_cases hpa : p + 1 = a <;> simp [specRuns, hsr, hpa]

/-- C3: the Page-Range Formatter drops nulls, converts entries with `int`,
deduplicates and sorts them, and renders the maximal consecutive runs of
the result, one-element runs as a bare number and longer runs as
start-end, comma-joined; the empty input renders as the empty string, and
the spec's examples evaluate as stated (given unordered, with a duplicate,
or with a null entry). -/
theorem C3_format_page_ranges :
    (∀ (cells : List Cell) (m : List Int),
       mapOpt pyIntOfVal (cells.filterMap id) = some m →
       format_page_ranges cells =
         some ((joinCommaChars
           ((specRuns (sortedDedup m)).map (fun ab => renderRun ab.1 ab.2))).asString)) ∧
    format_page_ranges [] = some ("") ∧
    format_page_ranges [some (.vInt 3), none, some (.vInt 9), some (.vInt 4),
        some (.vInt 10), some (.vInt 5), some (.vInt 7)] = some ("3-5, 7, 9-10") ∧
    format_page_ranges [some (.vInt 1), some (.vInt 3), some (.vInt 5)] = some ("1, 3, 5") ∧
    format_page_ranges [some (.vInt 5), some (.vInt 4), some (.vInt 3), some (.vInt 4)] =
      some ("3-5") := by
  refine ⟨?_, by decide, by decide, by decide, by decide⟩
  intro cells l h
  rw [format_page_ranges, h]
  simp [formatSorted_eq_specRuns]

/-- C3 witness: the general run-decomposition fact applied to a concrete
cell list containing a null. -/
theorem C3_format_page_ranges_witness :
    format_page_ranges [some (.vInt 2), none, some (.vInt 4)] =
      some ((joinCommaChars
        ((specRuns (sortedDedup [2, 4])).map (fun ab => renderRun ab.1 ab.2))).asString) :=
  (C3_format_page_ranges).1 _ [2, 4] rfl

/-! Grouping lemmas for the aggregator. -/

theorem cellOf_cons (k1 : String) (v1 : Cell) (rest : Row) (k : String) :
    cellOf ((k1, v1) :: rest) k = if k1 = k then v1 else cellOf rest k := by
  by_cases h : k1 = k <;> simp [cellOf, lookupCell_cons, h]

theorem cellOf_projectRow (cols : List String) (r : Row) (c : String) (h : c ∈ cols) :
    cellOf (projectRow cols r) c = cellOf r c := by
  induction cols with
  | nil => cases h
  | cons c0 cs ih =>
    have hPR : projectRow (c0 :: cs) r = (c0, cellOf r c0) :: projectRow cs r := rfl
    rw [hPR, cellOf_cons]
    by_cases hc : c0 = c
    · rw [if_pos hc, hc]
    · rw [if_neg hc]
      rcases List.mem_cons.mp h with h1 | h2
      · exact absurd h1.symm hc
      · exact ih h2

theorem dedupFirst_const (l : List Val) (k : Val) (hne : l ≠ []) (hall : ∀ x ∈ l, x = k) :
    dedupFirst l = [k] := by
  induction l with
  | nil => exact absurd rfl hne
  | cons v vs ih =>
    have hv : v = k := hall v (by simp)
    subst hv
    cases vs with
    | nil => simp [dedupFirst]
    | cons w ws =>
      have h2 := ih (by simp) (fun x hx => hall x (List.mem_cons_of_mem _ hx))
      have hun : dedupFirst (v :: w :: ws) =
          v :: (dedupFirst (w :: ws)).filter (fun x => decide (x ≠ v)) := rfl
      rw [hun, h2]
      simp

theorem filterMap_const_some (rows : List Row) (f : Row → Cell) (k : Val)
    (hall : ∀ r ∈ rows, f r = some k) :
    rows.filterMap f = rows.map (fun _ => k) := by
  induction rows with
  | nil => rfl
  | cons r rest ih =>
    simp [List.filterMap_cons, hall r (by simp),
      ih (fun x hx => hall x (List.mem_cons_of_mem _ hx))]

theorem groupKeys_const (rows : List Row) (k : Val) (hne : rows ≠ [])
    (hall : ∀ r ∈ rows, cellOf r kInvNo = some k) :
    groupKeys rows = [k] := by
  unfold groupKeys
  rw [filterMap_const_some rows _ k hall]
  apply dedupFirst_const
  · simpa using hne
  · intro x hx
    rcases List.mem_map.mp hx with ⟨r, _, hr⟩
    exact hr.symm

theorem groupRows_all (rows : List Row) (k : Val)
    (hall : ∀ r ∈ rows, cellOf r kInvNo = some k) :
    groupRows rows k = rows := by
  induction rows with
  | nil => rfl
  | cons r rest ih =>
    have h1 := hall r (by simp)
    have h2 := ih (fun x hx => hall x (List.mem_cons_of_mem _ hx))
    simp [groupRows, List.filter_cons, h1] at h2 ⊢
    exact h2

/-- C1: for a group of rows all bearing one non-null invoice number, the
aggregator (lines 196-218) resolves every invoice-level scalar field to the
first non-null value in row order, and `has_signature` to the last non-null
value in row order, producing exactly one summary row. -/
theorem C1_aggregator_tiebreak (rows : List Row) (k : Val) (t : Table)
    (hne : rows ≠ [])
    (hkey : ∀ r ∈ rows, cellOf r kInvNo = some k)
    (hok : groupAgg rows = some t) :
    ∃ row, t.rows = [row] ∧
      cellOf row kInvNo = some k ∧
      cellOf row kDocType = firstNonNull (colCells rows kDocType) ∧
      cellOf row kDate = firstNonNull (colCells rows kDate) ∧
      cellOf row kVendorName = firstNonNull (colCells rows kVendorName) ∧
      cellOf row kVendorTaxId = firstNonNull (colCells rows kVendorTaxId) ∧
      cellOf row kVendorAddr = firstNonNull (colCells rows kVendorAddr) ∧
      cellOf row kCustName = firstNonNull (colCells rows kCustName) ∧
      cellOf row kCustTaxId = firstNonNull (colCells rows kCustTaxId) ∧
      cellOf row kCustAddr = firstNonNull (colCells rows kCustAddr) ∧
      cellOf row kSubTotal = firstNonNull (colCells rows kSubTotal) ∧
      cellOf row kVat = firstNonNull (colCells rows kVat) ∧
      cellOf row kGrand = firstNonNull (colCells rows kGrand) ∧
      cellOf row kHasTax = firstNonNull (colCells rows kHasTax) ∧
      cellOf row kHasSig = lastNonNull (colCells rows kHasSig) := by
  unfold groupAgg at hok
  cases hc : aggSpec.all (fun ca => decide (ca.1 ∈ dfColumns rows)) with
  | false =>
    rw [hc] at hok
    simp at hok
  | true =>
    rw [hc] at hok
    rw [groupKeys_const rows k hne hkey] at hok
    simp only [mapOpt, if_true] at hok
    rw [groupRows_all rows k hkey] at hok
    cases hag : aggregateGroup k rows with
    | none => simp [hag] at hok
    | some aggRow =>
      rw [hag] at hok
      unfold aggregateGroup at hag
      cases hpg : format_page_ranges (colCells rows kPage) with
      | none => simp [aggSpec, mapOpt, aggCell, hpg] at hag
      | some s =>
        simp only [aggSpec, mapOpt, aggCell, hpg, Option.map_some'] at hag
        injection hag with hagr
        subst hagr
        simp only [mapOpt, cellOf_cons, kInvNo, kPage, String.reduceEq, reduceIte,
          Option.some_bind, Option.map_some'] at hok
        cases hext : extract_first_page_number (some (.vStr s)) with
        | none => simp [hext] at hok
        | some n =>
          simp only [hext, Option.map_some'] at hok
          simp only [sortBySortPage, insertBySortPage, List.foldr, List.map] at hok
          injection hok with ht
          subst ht
          have hfc : finalCols = column_order := by decide
          refine ⟨_, rfl, ?_, ?_, ?_, ?_, ?_, ?_, ?_, ?_, ?_, ?_, ?_, ?_, ?_, ?_⟩ <;>
            · rw [hfc, cellOf_projectRow _ _ _ (by decide)]
              simp [cellOf_cons, kPage, kInvNo, kDocType, kDate, kVendorName, kVendorTaxId,
                kVendorAddr, kCustName, kCustTaxId, kCustAddr, kSubTotal, kVat, kGrand,
                kHasTax, kHasSig, kDesc, kQty, kUnitPrice, kAmount]

/-- C1 witness: the theorem applied to a concrete two-row group presented
in ascending page order, plus the claim's two tie-break examples evaluated
concretely: `has_signature` false-then-true aggregates to true, and the
first non-null `vendor_name` (V1) wins over the conflicting V2. -/
theorem C1_aggregator_tiebreak_witness :
    (∃ row, c1Table.rows = [row] ∧
      cellOf row kInvNo = some (.vStr ("INV-7")) ∧
      cellOf row kDocType = firstNonNull (colCells c1Rows kDocType) ∧
      cellOf row kDate = firstNonNull (colCells c1Rows kDate) ∧
      cellOf row kVendorName = firstNonNull (colCells c1Rows kVendorName) ∧
      cellOf row kVendorTaxId = firstNonNull (colCells c1Rows kVendorTaxId) ∧
      cellOf row kVendorAddr = firstNonNull (colCells c1Rows kVendorAddr) ∧
      cellOf row kCustName = firstNonNull (colCells c1Rows kCustName) ∧
      cellOf row kCustTaxId = firstNonNull (colCells c1Rows kCustTaxId) ∧
      cellOf row kCustAddr = firstNonNull (colCells c1Rows kCustAddr) ∧
      cellOf row kSubTotal = firstNonNull (colCells c1Rows kSubTotal) ∧
      cellOf row kVat = firstNonNull (colCells c1Rows kVat) ∧
      cellOf row kGrand = firstNonNull (colCells c1Rows kGrand) ∧
      cellOf row kHasTax = firstNonNull (colCells c1Rows kHasTax) ∧
      cellOf row kHasSig = lastNonNull (colCells c1Rows kHasSig)) ∧
    c1Table.rows.map (fun row => cellOf row kHasSig) = [some (.vBool true)] ∧
    c1Table.rows.map (fun row => cellOf row kVendorName) = [some (.vStr ("V1"))] :=
  ⟨C1_aggregator_tiebreak c1Rows (.vStr ("INV-7")) c1Table (by decide) (by decide) (by decide),
   by decide, by decide⟩

/-! The response extractor claims. -/

/-- C4: the Response Extractor returns the no-data signal (None) when no
candidate JSON span is found (no fenced block and no brace span), and when
a candidate span's repaired text still fails to parse; all model functions
are total, mirroring that the decode error is caught and an unparsable
page never aborts the batch. -/
theorem C4_extractor_no_data (text : String) :
    (findFencedFrom text.data = none → findBraceSpan text.data = none →
       extract_and_clean_json text = none) ∧
    (∀ span,
       (findFencedFrom text.data).orElse (fun _ => findBraceSpan text.data) = some span →
       parseJsonChars (removeTrailingCommas (fix_numeric_commas span)) = none →
       extract_and_clean_json text = none) := by
  constructor
  · intro h1 h2
    simp [extract_and_clean_json, h1, h2, Option.orElse]
  · intro span h1 h2
    simp [extract_and_clean_json, h1, h2]

/-- C4 witness: a text with no brace-delimited substring, and a text whose
brace span fails to parse, both map to None. -/
theorem C4_extractor_no_data_witness :
    extract_and_clean_json ("no json here") = none ∧
    extract_and_clean_json ("\x7bnot json\x7d") = none :=
  ⟨(C4_extractor_no_data _).1 (by decide) (by decide),
   (C4_extractor_no_data _).2 (("\x7bnot json\x7d").data) (by decide) rfl⟩

/-- C5 counterexample: a well-formed fenced JSON block whose string value
contains a comma followed by a closing brace.  The trailing-comma repair
(line 108) rewrites inside the string literal, so the extractor returns a
value different from parsing the fenced block directly. -/
theorem C5_repairs_change_wellformed_counterexample :
    findFencedFrom c5Text.data = some c5Span ∧
    parseJsonChars c5Span = some (.obj [(("s"), .str ("a,\x7d"))]) ∧
    extract_and_clean_json c5Text = some (.obj [(("s"), .str ("a\x7d"))]) ∧
    Json.obj [(("s"), .str ("a\x7d"))] ≠ Json.obj [(("s"), .str ("a,\x7d"))] := by
  refine ⟨by decide, rfl, rfl, by simp⟩

/-- C5 as amended: for raw text containing a well-formed fenced JSON block
on which the two textual repairs act as the identity (in particular no
comma-before-closing-bracket pattern and no keyed thousands-separated
number occur inside its string literals), the extractor returns exactly the
value of parsing the fenced block directly. -/
theorem C5_fenced_extraction (text : String) (span : List Char) (v : Json)
    (hf : findFencedFrom text.data = some span)
    (hfix : fix_numeric_commas span = span)
    (htc : removeTrailingCommas span = span)
    (hp : parseJsonChars span = some v) :
    extract_and_clean_json text = some v := by
  simp [extract_and_clean_json, hf, hfix, htc, hp]

/-- C5 witness: a well-formed fenced block untouched by the repairs. -/
theorem C5_fenced_extraction_witness :
    extract_and_clean_json c5GoodText = some (.obj [(("a"), .num ("1"))]) :=
  C5_fenced_extraction c5GoodText (("\x7b\"a\": 1\x7d").data) (.obj [(("a"), .num ("1"))])
    (by decide) (by decide) (by decide) rfl

/-- C6 (code bug): `run_ocr_on_pdf` (line 169) returns only the bare list
of per-page records and never builds `df_grouped`, while its callers in
src/main.py and src/app.py unpack a pair.  The model evaluates the
function: a one-page batch yields a one-element list (its record bearing
`Page`), and an empty batch the empty list — in neither case a pair that
could be unpacked as (all_results_json, df_grouped). -/
theorem C6_run_ocr_returns_bare_list :
    run_ocr_on_pdf [((1 : Int), some c6Text)] =
      [.obj [(("a"), .num ("1")), ((kPage), .num ("1"))]] ∧
    (run_ocr_on_pdf [((1 : Int), some c6Text)]).length = 1 ∧
    run_ocr_on_pdf [] = [] :=
  ⟨rfl, rfl, rfl⟩

/-! Digit-string lemmas: Python `str(int)` output survives the
split-and-reparse done by `extract_first_page_number`. -/

theorem digitChar_isDigit (d : Nat) (h : d < 10) : (digitChar d).isDigit = true := by
  interval_cases d <;> decide

theorem digitVal_digitChar (d : Nat) (h : d < 10) : digitVal (digitChar d) = d := by
  interval_cases d <;> decide

theorem natDigitsAux_all_digit (fuel n : Nat) :
    ∀ c ∈ natDigitsAux fuel n, c.isDigit = true := by
  induction fuel generalizing n with
  | zero => simp [natDigitsAux]
  | succ f ih =>
    intro c hc
    by_cases hn : n < 10
    · simp [natDigitsAux, hn] at hc
      exact hc ▸ digitChar_isDigit n hn
    · simp only [natDigitsAux, if_neg hn, List.mem_append, List.mem_singleton] at hc
      rcases hc with hc | hc
      · exact ih (n / 10) c hc
      · exact hc ▸ digitChar_isDigit (n % 10) (Nat.mod_lt _ (by omega))

theorem natDigitsAux_ne_nil (fuel n : Nat) (h : 0 < fuel) : natDigitsAux fuel n ≠ [] := by
  cases fuel with
  | zero => omega
  | succ f =>
    by_cases hn : n < 10 <;> simp [natDigitsAux, hn]

theorem digitsValNat_append (l : List Char) (c : Char) :
    digitsValNat (l ++ [c]) = digitsValNat l * 10 + digitVal c := by
  simp [digitsValNat, List.foldl_append]

theorem natDigitsAux_val (fuel n : Nat) (h : n < fuel) :
    digitsValNat (natDigitsAux fuel n) = n := by
  induction fuel generalizing n with
  | zero => omega
  | succ f ih =>
    by_cases hn : n < 10
    · simp [natDigitsAux, hn, digitsValNat, digitVal_digitChar n hn]
    · have hdiv : n / 10 < n := Nat.div_lt_self (by omega) (by omega)
      have hlt : n / 10 < f := by omega
      rw [natDigitsAux, if_neg hn, digitsValNat_append, ih _ hlt,
        digitVal_digitChar _ (Nat.mod_lt _ (by omega))]
      have := Nat.div_add_mod n 10
      omega

theorem natDigits_all_digit (n : Nat) : ∀ c ∈ natDigits n, c.isDigit = true :=
  natDigitsAux_all_digit (n + 1) n

theorem natDigits_ne_nil (n : Nat) : natDigits n ≠ [] :=
  natDigitsAux_ne_nil (n + 1) n (by omega)

theorem digitsValNat_natDigits (n : Nat) : digitsValNat (natDigits n) = n :=
  natDigitsAux_val (n + 1) n (by omega)

theorem pyParseIntChars_digits (l : List Char) (hne : l ≠ [])
    (hd : ∀ c ∈ l, c.isDigit = true) : pyParseIntChars l = some ((digitsValNat l : Int)) := by
  cases l with
  | nil => exact absurd rfl hne
  | cons c cs =>
    have hcd : c.isDigit = true := hd c (by simp)
    have hcne : c ≠ '-' := by
      intro hh
      rw [hh] at hcd
      exact absurd hcd (by decide)
    have hall : (c :: cs).all Char.isDigit = true := List.all_eq_true.mpr hd
    rw [pyParseIntChars, if_neg hcne, if_pos hall]

theorem pyParseIntChars_natDigits (n : Nat) :
    pyParseIntChars (natDigits n) = some ((n : Int)) := by
  rw [pyParseIntChars_digits _ (natDigits_ne_nil n) (natDigits_all_digit n),
    digitsValNat_natDigits]

theorem not_mem_of_all_digit (c : Char) (l : List Char) (hc : c.isDigit = false)
    (hd : ∀ x ∈ l, x.isDigit = true) : c ∉ l := by
  intro h
  rw [hd c h] at hc
  exact absurd hc (by decide)

theorem takeUntil_of_not_mem (c : Char) (l : List Char) (h : c ∉ l) : takeUntil c l = l := by
  induction l with
  | nil => rfl
  | cons x xs ih =>
    have hx : x ≠ c := fun hh => h (by simp [hh])
    have hxs : c ∉ xs := fun hh => h (List.mem_cons_of_mem _ hh)
    simp [takeUntil, List.takeWhile_cons, hx] at ih ⊢
    exact ih hxs

theorem takeUntil_append_stop (c : Char) (a b : List Char) (h : c ∉ a) :
    takeUntil c (a ++ c :: b) = a := by
  induction a with
  | nil => simp [takeUntil, List.takeWhile_cons]
  | cons x xs ih =>
    have hx : x ≠ c := fun hh => h (by simp [hh])
    have hxs : c ∉ xs := fun hh => h (List.mem_cons_of_mem _ hh)
    have hstep : takeUntil c ((x :: xs) ++ c :: b) = x :: takeUntil c (xs ++ c :: b) := by
      simp [takeUntil, List.takeWhile_cons, hx]
    rw [hstep, ih hxs]

theorem pyStrIntChars_nonneg (n : Int) (h : 0 ≤ n) : pyStrIntChars n = natDigits n.toNat := by
  simp [pyStrIntChars, not_lt.mpr h]

theorem natDigits_no_dash (n : Nat) : '-' ∉ natDigits n :=
  not_mem_of_all_digit _ _ (by decide) (natDigits_all_digit n)

theorem natDigits_no_comma (n : Nat) : ',' ∉ natDigits n :=
  not_mem_of_all_digit _ _ (by decide) (natDigits_all_digit n)

theorem renderRun_no_comma (s x : Int) (hs : 0 ≤ s) (hx : 0 ≤ x) : ',' ∉ renderRun s x := by
  rw [renderRun]
  by_cases hsx : s = x
  · rw [if_pos hsx, pyStrIntChars_nonneg s hs]
    exact natDigits_no_comma _
  · rw [if_neg hsx, pyStrIntChars_nonneg s hs, pyStrIntChars_nonneg x hx]
    intro hmem
    rcases List.mem_append.mp hmem with h1 | h1
    · exact natDigits_no_comma _ h1
    · rcases List.mem_cons.mp h1 with h2 | h2
      · exact absurd h2 (by decide)
      · exact natDigits_no_comma _ h2

theorem parse_first_token_renderRun (s x : Int) (hs : 0 ≤ s) (hx : 0 ≤ x) :
    pyParseIntChars (takeUntil '-' (renderRun s x)) = some s := by
  rw [renderRun]
  by_cases hsx : s = x
  · rw [if_pos hsx, pyStrIntChars_nonneg s hs,
      takeUntil_of_not_mem _ _ (natDigits_no_dash _), pyParseIntChars_natDigits,
      Int.toNat_of_nonneg hs]
  · rw [if_neg hsx, pyStrIntChars_nonneg s hs, pyStrIntChars_nonneg x hx,
      takeUntil_append_stop '-' _ _ (natDigits_no_dash _), pyParseIntChars_natDigits,
      Int.toNat_of_nonneg hs]

theorem extract_joinCommaChars_head (s x : Int) (hs : 0 ≤ s) (hx : 0 ≤ x)
    (T : List (List Char)) :
    pyParseIntChars (takeUntil '-' (takeUntil ',' (joinCommaChars (renderRun s x :: T)))) =
      some s := by
  cases T with
  | nil =>
    rw [show joinCommaChars [renderRun s x] = renderRun s x from rfl,
      takeUntil_of_not_mem _ _ (renderRun_no_comma s x hs hx),
      parse_first_token_renderRun s x hs hx]
  | cons t ts =>
    rw [show joinCommaChars (renderRun s x :: t :: ts) =
          renderRun s x ++ ',' :: ' ' :: joinCommaChars (t :: ts) from rfl,
      takeUntil_append_stop ',' _ _ (renderRun_no_comma s x hs hx),
      parse_first_token_renderRun s x hs hx]

theorem rangesLoop_head (s e : Int) (l : List Int) :
    ∃ x T, rangesLoop s e l = renderRun s x :: T ∧ (x = e ∨ x ∈ l) := by
  induction l generalizing e with
  | nil => exact ⟨e, [], rfl, Or.inl rfl⟩
  | cons q qs ih =>
    by_cases hq : q = e + 1
    · obtain ⟨x, T, hx, hmem⟩ := ih q
      subst hq
      refine ⟨x, T, by simpa [rangesLoop] using hx, ?_⟩
      rcases hmem with h | h
      · exact Or.inr (by simp [h])
      · exact Or.inr (List.mem_cons_of_mem _ h)
    · exact ⟨e, rangesLoop q q qs, by simp [rangesLoop, hq], Or.inl rfl⟩

theorem extract_formatSorted (p : Int) (ps : List Int) (hp : 0 ≤ p)
    (hps : ∀ x ∈ ps, 0 ≤ x) :
    extract_first_page_number (some (.vStr (formatSorted (p :: ps)))) = some p := by
  obtain ⟨x, T, hloop, hmem⟩ := rangesLoop_head p p ps
  have hx : 0 ≤ x := by
    rcases hmem with h | h
    · exact h ▸ hp
    · exact hps x h
  show pyParseIntChars (takeUntil '-' (takeUntil ',' (formatSorted (p :: ps)).data)) = some p
  rw [show (formatSorted (p :: ps)).data = joinCommaChars (rangesLoop p p ps) from rfl, hloop]
  exact extract_joinCommaChars_head p x hp hx T

theorem mem_insSortDedup (n : Int) (l : List Int) (x : Int) (h : x ∈ insSortDedup n l) :
    x = n ∨ x ∈ l := by
  induction l with
  | nil => simpa [insSortDedup] using h
  | cons m ms ih =>
    rw [insSortDedup] at h
    by_cases h1 : n < m
    · rw [if_pos h1] at h
      rcases List.mem_cons.mp h with h2 | h2
      · exact Or.inl h2
      · exact Or.inr h2
    · rw [if_neg h1] at h
      by_cases h2 : n = m
      · rw [if_pos h2] at h
        exact Or.inr h
      · rw [if_neg h2] at h
        rcases List.mem_cons.mp h with h3 | h3
        · exact Or.inr (by simp [h3])
        · rcases ih h3 with h4 | h4
          · exact Or.inl h4
          · exact Or.inr (List.mem_cons_of_mem _ h4)

theorem insSortDedup_ne_nil (n : Int) (l : List Int) : insSortDedup n l ≠ [] := by
  cases l with
  | nil => simp [insSortDedup]
  | cons m ms =>
    rw [insSortDedup]
    by_cases h1 : n < m
    · simp [h1]
    · rw [if_neg h1]
      by_cases h2 : n = m <;> simp [h2]

theorem sortedDedup_nonneg (l : List Int) (h : ∀ x ∈ l, 0 ≤ x) :
    ∀ x ∈ sortedDedup l, 0 ≤ x := by
  induction l with
  | nil => simp [sortedDedup]
  | cons a rest ih =>
    intro x hx
    have hstep : sortedDedup (a :: rest) = insSortDedup a (sortedDedup rest) := rfl
    rw [hstep] at hx
    rcases mem_insSortDedup _ _ _ hx with h1 | h1
    · exact h1 ▸ h a (by simp)
    · exact ih (fun y hy => h y (List.mem_cons_of_mem _ hy)) x h1

theorem sortedDedup_ne_nil (l : List Int) (h : l ≠ []) : sortedDedup l ≠ [] := by
  cases l with
  | nil => exact absurd rfl h
  | cons a rest => exact insSortDedup_ne_nil a (sortedDedup rest)

/-! Success lemmas for the aggregation pipeline. -/

theorem mapOpt_isSome (f : α → Option β) (l : List α)
    (h : ∀ a ∈ l, ∃ b, f a = some b) :
    ∃ bs, mapOpt f l = some bs ∧ ∀ b ∈ bs, ∃ a ∈ l, f a = some b := by
  induction l with
  | nil => exact ⟨[], rfl, by simp⟩
  | cons a as ih =>
    obtain ⟨b, hb⟩ := h a (by simp)
    obtain ⟨bs, hbs, hmem⟩ := ih (fun x hx => h x (List.mem_cons_of_mem _ hx))
    refine ⟨b :: bs, by simp [mapOpt, hb, hbs], ?_⟩
    intro c hc
    rcases List.mem_cons.mp hc with h1 | h1
    · exact ⟨a, by simp, h1 ▸ hb⟩
    · obtain ⟨a', ha', hfa⟩ := hmem c h1
      exact ⟨a', List.mem_cons_of_mem _ ha', hfa⟩

theorem mapOpt_pyInt_nat (vals : List Val)
    (h : ∀ v ∈ vals, ∃ n : Nat, v = .vInt (n : Int)) :
    ∃ ints, mapOpt pyIntOfVal vals = some ints ∧ (∀ x ∈ ints, 0 ≤ x) ∧
      ints.length = vals.length := by
  induction vals with
  | nil => exact ⟨[], rfl, by simp, rfl⟩
  | cons v vs ih =>
    obtain ⟨n, hn⟩ := h v (by simp)
    obtain ⟨ints, hmo, hnn, hlen⟩ := ih (fun w hw => h w (List.mem_cons_of_mem _ hw))
    subst hn
    refine ⟨(n : Int) :: ints, by simp [mapOpt, pyIntOfVal, hmo], ?_, by simp [hlen]⟩
    intro x hx
    rcases List.mem_cons.mp hx with h1 | h1
    · rw [h1]
      omega
    · exact hnn x h1

theorem format_page_ranges_nat_ok (cells : List Cell) (hne : cells ≠ [])
    (hall : ∀ c ∈ cells, ∃ n : Nat, c = some (.vInt (n : Int))) :
    ∃ s, format_page_ranges cells = some s ∧
      ∃ p : Int, extract_first_page_number (some (.vStr s)) = some p := by
  have hvals : ∀ v ∈ cells.filterMap id, ∃ n : Nat, v = .vInt (n : Int) := by
    intro v hv
    rcases List.mem_filterMap.mp hv with ⟨c, hc, hcv⟩
    obtain ⟨n, hn⟩ := hall c hc
    rw [hn] at hcv
    exact ⟨n, by injection hcv with h1; exact h1.symm⟩
  obtain ⟨ints, hmo, hnn, hlen⟩ := mapOpt_pyInt_nat _ hvals
  have hfne : cells.filterMap id ≠ [] := by
    cases cells with
    | nil => exact absurd rfl hne
    | cons c rest =>
      obtain ⟨n, hn⟩ := hall c (by simp)
      rw [hn]
      simp [List.filterMap_cons]
  have hine : ints ≠ [] := by
    intro h0
    rw [h0] at hlen
    exact hfne (List.length_eq_zero.mp hlen.symm)
  have hsdne := sortedDedup_ne_nil ints hine
  rcases hsd : sortedDedup ints with _ | ⟨q, qs⟩
  · exact absurd hsd hsdne
  · have hq0 : 0 ≤ q := sortedDedup_nonneg ints hnn q (by rw [hsd]; simp)
    have hqs0 : ∀ x ∈ qs, 0 ≤ x := fun x hx =>
      sortedDedup_nonneg ints hnn x (by rw [hsd]; exact List.mem_cons_of_mem _ hx)
    refine ⟨formatSorted (sortedDedup ints), ?_, ?_⟩
    · rw [format_page_ranges, hmo]
      rfl
    · rw [hsd]
      exact ⟨q, extract_formatSorted q qs hq0 hqs0⟩

theorem aggregateGroup_eq (k : Val) (g : List Row) (s : String)
    (hs : format_page_ranges (colCells g kPage) = some s) :
    aggregateGroup k g = some (aggRowOf k g s) := by
  unfold aggregateGroup aggRowOf
  simp [aggSpec, mapOpt, aggCell, hs]

theorem cellOf_aggRowOf_Page (k : Val) (g : List Row) (s : String) :
    cellOf (aggRowOf k g s) kPage = some (.vStr s) := by
  simp [aggRowOf, cellOf_cons, kInvNo, kPage]

theorem aggregateGroup_ok (k : Val) (g : List Row) (hne : g ≠ [])
    (hpage : ∀ r ∈ g, ∃ n : Nat, cellOf r kPage = some (.vInt (n : Int))) :
    ∃ row, aggregateGroup k g = some row ∧
      ∃ p : Int, extract_first_page_number (cellOf row kPage) = some p := by
  have hcells : ∀ c ∈ colCells g kPage, ∃ n : Nat, c = some (.vInt (n : Int)) := by
    intro c hc
    rcases List.mem_map.mp hc with ⟨r, hr, hcr⟩
    obtain ⟨n, hn⟩ := hpage r hr
    exact ⟨n, by rw [← hcr, hn]⟩
  have hcne : colCells g kPage ≠ [] := by
    cases g with
    | nil => exact absurd rfl hne
    | cons r rest => simp [colCells]
  obtain ⟨s, hs, p, hp⟩ := format_page_ranges_nat_ok _ hcne hcells
  exact ⟨aggRowOf k g s, aggregateGroup_eq k g s hs, p,
    by rw [cellOf_aggRowOf_Page]; exact hp⟩

theorem mem_dedupFirst (l : List Val) (x : Val) (h : x ∈ dedupFirst l) : x ∈ l := by
  induction l with
  | nil => simp [dedupFirst] at h
  | cons v vs ih =>
    have hstep : dedupFirst (v :: vs) = v :: (dedupFirst vs).filter (fun w => decide (w ≠ v)) :=
      rfl
    rw [hstep] at h
    rcases List.mem_cons.mp h with h1 | h1
    · simp [h1]
    · exact List.mem_cons_of_mem _ (ih (List.mem_of_mem_filter h1))

theorem exists_row_of_mem_groupKeys (rows : List Row) (k : Val) (h : k ∈ groupKeys rows) :
    ∃ r ∈ rows, cellOf r kInvNo = some k := by
  have h1 : k ∈ rows.filterMap (fun r => cellOf r kInvNo) := mem_dedupFirst _ _ h
  rcases List.mem_filterMap.mp h1 with ⟨r, hr, hcr⟩
  exact ⟨r, hr, hcr⟩

theorem groupRows_ne_nil (rows : List Row) (k : Val) (h : k ∈ groupKeys rows) :
    groupRows rows k ≠ [] := by
  obtain ⟨r, hr, hcr⟩ := exists_row_of_mem_groupKeys rows k h
  intro hnil
  have hmem : r ∈ groupRows rows k := List.mem_filter.mpr ⟨hr, decide_eq_true hcr⟩
  rw [hnil] at hmem
  cases hmem

theorem mem_of_mem_groupRows (rows : List Row) (k : Val) (r : Row)
    (h : r ∈ groupRows rows k) : r ∈ rows ∧ cellOf r kInvNo = some k := by
  have h1 := List.mem_filter.mp h
  exact ⟨h1.1, of_decide_eq_true h1.2⟩

theorem firstNonNull_singleton (c : Cell) : firstNonNull [c] = c := by
  cases c <;> rfl

theorem lastNonNull_singleton (c : Cell) : lastNonNull [c] = c := by
  cases c <;> rfl

theorem extract_first_page_number_natDigits (n : Nat) :
    extract_first_page_number (some (.vStr ((natDigits n).asString))) = some ((n : Int)) := by
  show pyParseIntChars (takeUntil '-' (takeUntil ',' (natDigits n))) = some ((n : Int))
  rw [takeUntil_of_not_mem _ _ (natDigits_no_comma n),
    takeUntil_of_not_mem _ _ (natDigits_no_dash n)]
  exact pyParseIntChars_natDigits n

theorem format_page_ranges_single_nat (n : Nat) :
    format_page_ranges [some (.vStr ((natDigits n).asString))] =
      some ((natDigits n).asString) := by
  have hparse : pyIntOfVal (.vStr ((natDigits n).asString)) = some ((n : Int)) := by
    show pyParseIntChars ((natDigits n).asString).data = some ((n : Int))
    rw [show ((natDigits n).asString).data = natDigits n from rfl]
    exact pyParseIntChars_natDigits n
  have h2 : formatSorted [((n : Int))] = (natDigits n).asString := by
    show (joinCommaChars (rangesLoop (n : Int) (n : Int) [])).asString = _
    rw [show joinCommaChars (rangesLoop (n : Int) (n : Int) []) = renderRun (n : Int) (n : Int)
          from rfl,
      renderRun, if_pos rfl, pyStrIntChars_nonneg _ (by omega)]
    simp
  rw [format_page_ranges]
  simp only [List.filterMap_cons, List.filterMap_nil, id, mapOpt, hparse, Option.map_some']
  rw [show sortedDedup [((n : Int))] = [((n : Int))] from rfl, h2]

theorem projectRow_congr (cols : List String) (x y : Row)
    (h : ∀ c ∈ cols, cellOf x c = cellOf y c) : projectRow cols x = projectRow cols y := by
  induction cols with
  | nil => rfl
  | cons c cs ih =>
    have hs1 : projectRow (c :: cs) x = (c, cellOf x c) :: projectRow cs x := rfl
    have hs2 : projectRow (c :: cs) y = (c, cellOf y c) :: projectRow cs y := rfl
    rw [hs1, hs2, h c (by simp), ih (fun d hd => h d (List.mem_cons_of_mem _ hd))]

/-- C7 counterexample: aggregating a two-page single-invoice group
succeeds, but aggregating the resulting summary row a second time fails:
the summary's Page cell is the string 1-2, on which `int()` raises while
re-rendering the page range — no summary row is produced at all. -/
theorem C7_idempotence_counterexample :
    (groupAgg c7Rows).isSome = true ∧ reAgg c7Rows = none := by
  decide

/-- C7 as amended: re-aggregation is the identity on an aggregated
single-invoice row whose page-range string is a single page number: for
any row in canonical column shape whose Page cell renders one natural
number, whose line-item columns are joined strings, and whose columns
cover the agg dict, aggregating the one-row table reproduces it exactly.
For a group whose range string spans several pages the second aggregation
instead raises (see the counterexample). -/
theorem C7_idempotent_single_page (r : Row) (k : Val) (n : Nat)
    (hkey : cellOf r kInvNo = some k)
    (hpage : cellOf r kPage = some (.vStr ((natDigits n).asString)))
    (hdesc : ∃ s, cellOf r kDesc = some (.vStr s))
    (hqty : ∃ s, cellOf r kQty = some (.vStr s))
    (hunit : ∃ s, cellOf r kUnitPrice = some (.vStr s))
    (hamt : ∃ s, cellOf r kAmount = some (.vStr s))
    (hcols : aggSpec.all (fun ca => decide (ca.1 ∈ dfColumns [r])) = true)
    (hshape : r = projectRow column_order r) :
    groupAgg [r] = some { cols := finalCols, rows := [r] } := by
  obtain ⟨sd, hsd⟩ := hdesc
  obtain ⟨sq, hsq⟩ := hqty
  obtain ⟨su, hsu⟩ := hunit
  obtain ⟨sa, hsa⟩ := hamt
  have hone : ∀ r' ∈ [r], cellOf r' kInvNo = some k := by
    intro r' hr'
    rw [List.mem_singleton.mp hr']
    exact hkey
  have hfmt : format_page_ranges (colCells [r] kPage) = some ((natDigits n).asString) := by
    rw [show colCells [r] kPage = [cellOf r kPage] from rfl, hpage]
    exact format_page_ranges_single_nat n
  have hag : aggregateGroup k [r] = some (aggRowOf k [r] ((natDigits n).asString)) :=
    aggregateGroup_eq k [r] _ hfmt
  have hcelleq : ∀ c ∈ column_order,
      cellOf (aggRowOf k [r] ((natDigits n).asString)) c = cellOf r c := by
    simp only [kPage, kInvNo, kDesc, kQty, kUnitPrice, kAmount] at hkey hpage hsd hsq hsu hsa
    intro c hc
    fin_cases hc <;>
      simp [aggRowOf, cellOf_cons, kPage, kDocType, kInvNo, kDate, kVendorName,
        kVendorTaxId, kVendorAddr, kCustName, kCustTaxId, kCustAddr, kDesc, kQty,
        kUnitPrice, kAmount, kSubTotal, kVat, kGrand, kHasTax, kHasSig, colCells,
        firstNonNull_singleton, lastNonNull_singleton, joinLinesStr, joinWith, pyStrVal,
        List.filterMap_cons, hkey, hpage, hsd, hsq, hsu, hsa]
  have hproj : projectRow finalCols (aggRowOf k [r] ((natDigits n).asString)) = r := by
    rw [show finalCols = column_order from by decide,
      projectRow_congr column_order _ r hcelleq, ← hshape]
  unfold groupAgg
  rw [if_pos hcols, groupKeys_const [r] k (by simp) hone]
  simp only [mapOpt]
  rw [groupRows_all [r] k hone, hag]
  simp only [Option.some_bind, mapOpt, cellOf_aggRowOf_Page,
    extract_first_page_number_natDigits, Option.map_some']
  simp only [sortBySortPage, insertBySortPage, List.foldr, List.map, hproj]

/-- C7 witness: a concrete canonical single-page summary row is a fixed
point of the aggregation. -/
theorem C7_idempotent_single_page_witness :
    groupAgg [c7SRow] = some { cols := finalCols, rows := [c7SRow] } :=
  C7_idempotent_single_page c7SRow (.vStr ("A")) 1 (by decide) (by decide)
    ⟨("x"), by decide⟩ ⟨("1"), by decide⟩ ⟨("100"), by decide⟩ ⟨("100"), by decide⟩
    (by decide) (by decide)

/-- C8 counterexample: a row whose invoice-number binding is present but
null is dropped by the groupby as the claim says, but with no other row in
the batch the aggregation then raises KeyError (the remaining agg-dict
columns are absent from the frame) instead of returning an empty table. -/
theorem C8_empty_table_counterexample :
    results_to_dataframe [⟨[(kPage, some (.vInt 1)), (kInvNo, none)], .absent⟩] = none := by
  decide

/-- C8 as amended: rows with a null or missing invoice number are excluded
from every group (their cell never equals the group key); a batch in which
no row has the invoice-number key at all yields the empty table; and a
batch whose rows carry the key with only null values yields a table with
zero rows provided every aggregated column is present — when one is
missing, the aggregation raises KeyError instead (see the
counterexample). -/
theorem C8_null_invoice_policy :
    (∀ records, kInvNo ∉ dfColumns (flattenAll records) →
       results_to_dataframe records = some { cols := [], rows := [] }) ∧
    (∀ records, kInvNo ∈ dfColumns (flattenAll records) →
       (∀ row ∈ flattenAll records, cellOf row kInvNo = none) →
       (∀ ca ∈ aggSpec, ca.1 ∈ dfColumns (flattenAll records)) →
       results_to_dataframe records = some { cols := finalCols, rows := [] }) ∧
    (∀ rows (k : Val) r, k ∈ groupKeys rows → r ∈ groupRows rows k →
       cellOf r kInvNo = some k) := by
  refine ⟨?_, ?_, ?_⟩
  · intro records h
    unfold results_to_dataframe
    rw [if_neg h]
  · intro records hinv hnull hcols
    have hall : aggSpec.all (fun ca => decide (ca.1 ∈ dfColumns (flattenAll records))) = true := by
      rw [List.all_eq_true]
      intro ca hca
      exact decide_eq_true (hcols ca hca)
    have hkeys : groupKeys (flattenAll records) = [] := by
      unfold groupKeys
      have hfm : (flattenAll records).filterMap (fun r => cellOf r kInvNo) = [] := by
        rw [List.filterMap_eq_nil_iff]
        exact hnull
      rw [hfm]
      rfl
    unfold results_to_dataframe
    rw [if_pos hinv]
    unfold groupAgg
    rw [if_pos hall, hkeys]
    rfl
  · intro rows k r _ hr
    exact (mem_of_mem_groupRows rows k r hr).2

/-- C8 witness: the two empty-output cases evaluated concretely. -/
theorem C8_null_invoice_policy_witness :
    results_to_dataframe c8NoKeyRecs = some { cols := [], rows := [] } ∧
    results_to_dataframe c8NullRecs = some { cols := finalCols, rows := [] } :=
  ⟨(C8_null_invoice_policy).1 c8NoKeyRecs (by decide),
   (C8_null_invoice_policy).2.1 c8NullRecs (by decide) (by decide) (by decide)⟩

/-- C9 counterexample: a batch whose rows carry an invoice number but lack
the other aggregated columns makes the agg dict raise KeyError (modelled
`none`), contradicting "returns a table without raising" and "absent
canonical columns are simply omitted". -/
theorem C9_totality_counterexample :
    results_to_dataframe
        [⟨[(kPage, some (.vInt 1)), (kInvNo, some (.vStr ("INV-1")))], .absent⟩] = none := by
  decide

/-- C9 as amended: when every aggregated column occurs among the input
columns and every row carries a natural-number Page value, the aggregation
returns a table whose columns are exactly the fixed canonical order; a
canonical column missing from the input data instead raises KeyError
rather than being omitted (see the counterexample), and the no-invoice
early return produces a table with no columns at all. -/
theorem C9_aggregation_columns (records : List ExtractionRecord)
    (hinv : kInvNo ∈ dfColumns (flattenAll records))
    (hcols : ∀ ca ∈ aggSpec, ca.1 ∈ dfColumns (flattenAll records))
    (hpage : ∀ row ∈ flattenAll records, ∃ n : Nat, cellOf row kPage = some (.vInt (n : Int))) :
    ∃ t, results_to_dataframe records = some t ∧ t.cols = column_order := by
  have hall : aggSpec.all (fun ca => decide (ca.1 ∈ dfColumns (flattenAll records))) = true := by
    rw [List.all_eq_true]
    intro ca hca
    exact decide_eq_true (hcols ca hca)
  have hkeys : ∀ kk ∈ groupKeys (flattenAll records),
      ∃ row, aggregateGroup kk (groupRows (flattenAll records) kk) = some row ∧
        ∃ p : Int, extract_first_page_number (cellOf row kPage) = some p :=
    fun kk hkk => aggregateGroup_ok kk _ (groupRows_ne_nil _ _ hkk)
      (fun r hr => hpage r (mem_of_mem_groupRows _ _ _ hr).1)
  obtain ⟨grouped, hg, hgmem⟩ :=
    mapOpt_isSome (fun kk => aggregateGroup kk (groupRows (flattenAll records) kk)) _
      (fun kk hkk => (hkeys kk hkk).imp (fun row h => h.1))
  have h2 : ∀ row ∈ grouped,
      ∃ pr, (extract_first_page_number (cellOf row kPage)).map (fun m => (m, row)) = some pr := by
    intro row hrow
    obtain ⟨kk, hkk, hak⟩ := hgmem row hrow
    obtain ⟨row2, hag2, p, hp⟩ := hkeys kk hkk
    rw [hak] at hag2
    injection hag2 with hre
    subst hre
    exact ⟨(p, row), by rw [hp]; rfl⟩
  obtain ⟨keyed, hkd, _⟩ :=
    mapOpt_isSome (fun r => (extract_first_page_number (cellOf r kPage)).map (fun m => (m, r)))
      grouped h2
  refine ⟨{ cols := finalCols
            rows := ((sortBySortPage keyed).map (fun x => x.2)).map (projectRow finalCols) },
    ?_, by show finalCols = column_order; decide⟩
  unfold results_to_dataframe
  rw [if_pos hinv]
  unfold groupAgg
  rw [if_pos hall, hg]
  simp only [Option.some_bind, hkd, Option.map_some']

/-- C9 witness: the amended totality fact applied to a concrete one-record
batch with all aggregated columns present. -/
theorem C9_aggregation_columns_witness :
    ∃ t, results_to_dataframe c9Recs = some t ∧ t.cols = column_order :=
  C9_aggregation_columns c9Recs (by decide) (by decide)
    (by
      intro row hrow
      have hfl : flattenAll c9Recs = [fullRow (some (.vStr ("B"))) 1 ("V") true ("z")] := by
        decide
      rw [hfl, List.mem_singleton] at hrow
      subst hrow
      exact ⟨1, by decide⟩)

end Ocr
